import Mathlib

/-!
Shallow embedding of the tauri-plugin-graphql bridge (src/src/lib.rs).

The plugin's `init` installs an invoke handler that dispatches on the command
name: "graphql" decodes the payload as a batch request, executes it, and
resolves with the serialized response paired with its success flag;
"subscriptions" decodes the payload as a subscription request, drains the
engine's result stream emitting each serialized item on channel
"graphql://{id}", emits a final JSON null sentinel, and then resolves; any
other command is rejected naming the two valid endpoints.

The GraphQL engine (async-graphql) and the host transport (tauri) are external
collaborators: the engine's execution is a parameter of the embedding, its
request/response types and their serde shapes are modelled below, and the
transport's observable behaviour (resolve / reject / emit) is recorded as an
action trace.
-/

namespace TauriGraphql

/-- JSON values as delivered to the handler by the IPC layer
(`serde_json::Value`).  Numbers are modelled as rationals so that the
negative / non-integral / out-of-range distinctions made by serde's `u32`
deserializer are expressible. -/
inductive Json where
  | null : Json
  | bool (b : Bool) : Json
  | num (q : Rat) : Json
  | str (s : String) : Json
  | arr (xs : List Json) : Json
  | obj (ms : List (String × Json)) : Json

/-- A single GraphQL request (`async_graphql::Request`): operation name,
query string, variables.  The ambient context data added by the bridge via
`.data(app_handle).data(window)` is opaque to every claim and is left to the
engine parameter. -/
structure Request where
  query : String
  operationName : Option String
  /-- the `variables` field (named `vars` here because `variables` is a
  reserved word in the proof language) -/
  vars : List (String × Json)

/-- `async_graphql::BatchRequest`: an untagged union of a single request and
a list of requests. -/
inductive BatchRequest where
  | single (r : Request) : BatchRequest
  | batch (rs : List Request) : BatchRequest

/-- `SubscriptionRequest` from src/src/lib.rs: a flattened `Request` plus a
required `id : u32` field.  The u32 is modelled as a `Nat` that the decoder
constrains to `[0, 2^32)`. -/
structure SubscriptionRequest where
  inner : Request
  id : Nat

/-- Field lookup in a decoded JSON object (serde maps resolve each key once;
first binding wins in this list model). -/
def lookupField (ms : List (String × Json)) (k : String) : Option Json :=
  match ms with
  | [] => none
  | (k', v) :: rest => if k' = k then some v else lookupField rest k

/-- Decode a single `Request` from a JSON value (serde derive shape: object
with required string `query`, optional string `operationName`, optional
object `variables`; unknown fields ignored). -/
def decodeRequest (p : Json) : Except String Request :=
  match p with
  | .obj ms =>
    match lookupField ms "query" with
    | some (.str q) =>
      match lookupField ms "operationName" with
      | some (.str o) => decodeVariables ms q (some o)
      | some .null => decodeVariables ms q none
      | none => decodeVariables ms q none
      | some _ => .error "invalid type for field operationName: expected a string"
    | some _ => .error "invalid type for field query: expected a string"
    | none => .error "missing field query"
  | _ => .error "invalid type: expected a map for Request"
where
  decodeVariables (ms : List (String × Json)) (q : String) (o : Option String) :
      Except String Request :=
    match lookupField ms "variables" with
    | some (.obj vs) => .ok { query := q, operationName := o, vars := vs }
    | none => .ok { query := q, operationName := o, vars := [] }
    | some _ => .error "invalid type for field variables: expected a map"

/-- Decode each element of a JSON array as a `Request`, propagating the first
failure (the `Vec<Request>` arm of the untagged `BatchRequest`). -/
def decodeRequestList (xs : List Json) : Except String (List Request) :=
  match xs with
  | [] => .ok []
  | x :: rest =>
    match decodeRequest x with
    | .ok r =>
      match decodeRequestList rest with
      | .ok rs => .ok (r :: rs)
      | .error e => .error e
    | .error e => .error e

/-- Decode an `async_graphql::BatchRequest` (untagged: a JSON object is a
single request, a JSON array is a batch, anything else fails). -/
def decodeBatchRequest (p : Json) : Except String BatchRequest :=
  match p with
  | .arr xs =>
    match decodeRequestList xs with
    | .ok rs => .ok (.batch rs)
    | .error e => .error e
  | .obj ms =>
    match decodeRequest (.obj ms) with
    | .ok r => .ok (.single r)
    | .error e => .error e
  | _ => .error "data did not match any variant of untagged enum BatchRequest"

/-- Decode a `SubscriptionRequest`: the flattened request fields plus a
required `id` that serde only accepts when the JSON number is a non-negative
integer below `2^32`. -/
def decodeSubscriptionRequest (p : Json) : Except String SubscriptionRequest :=
  match p with
  | .obj ms =>
    match lookupField ms "id" with
    | some (.num q) =>
      if q.den = 1 ∧ 0 ≤ q.num ∧ q.num < 4294967296 then
        match decodeRequest (.obj ms) with
        | .ok r => .ok { inner := r, id := q.num.toNat }
        | .error e => .error e
      else .error "invalid value for field id: expected u32"
    | some _ => .error "invalid type for field id: expected u32"
    | none => .error "missing field id"
  | _ => .error "invalid type: expected a map for SubscriptionRequest"

/-- JSON values in the subset the engine's responses use (GraphQL data:
objects, arrays, strings, `Int` numbers, booleans, null).  Serialized by
`encode` below, which mirrors `serde_json::to_string`'s compact output. -/
inductive JValue where
  | null : JValue
  | bool (b : Bool) : JValue
  | num (n : Int) : JValue
  | str (s : String) : JValue
  | arr (xs : List JValue) : JValue
  | obj (ms : List (String × JValue)) : JValue

/-- An execution error inside an engine response
(`async_graphql::ServerError`; the model keeps the `message` field, the
only one that is always serialized). -/
structure ServerError where
  message : String

/-- Serialization of a `ServerError` (an object with its message). -/
def ServerError.toJson (e : ServerError) : JValue :=
  .obj [("message", .str e.message)]

/-- A single engine response (`async_graphql::Response`): result data plus
the list of GraphQL-level execution errors. -/
structure Response where
  data : JValue
  errors : List ServerError

/-- `Response::is_ok`: true when the response carries no errors. -/
def Response.isOk (r : Response) : Bool :=
  r.errors.isEmpty

/-- Serialization shape of a `Response`: `data` always present, `errors`
present exactly when non-empty. -/
def Response.toJson (r : Response) : JValue :=
  .obj ([("data", r.data)] ++
    (if r.errors.isEmpty then []
     else [("errors", .arr (r.errors.map ServerError.toJson))]))

/-- `async_graphql::BatchResponse`: one response or a batch of them. -/
inductive BatchResponse where
  | single (r : Response) : BatchResponse
  | batch (rs : List Response) : BatchResponse

/-- `BatchResponse::is_ok`: every contained response is error-free. -/
def BatchResponse.isOk (b : BatchResponse) : Bool :=
  match b with
  | .single r => r.isOk
  | .batch rs => rs.all Response.isOk

/-- Serialization shape of a `BatchResponse` (untagged: single responses as
objects, batches as arrays). -/
def BatchResponse.toJson (b : BatchResponse) : JValue :=
  match b with
  | .single r => r.toJson
  | .batch rs => .arr (rs.map Response.toJson)

/-- The spec-side reading of "the response contains no errors". -/
def BatchResponse.NoErrors (b : BatchResponse) : Prop :=
  match b with
  | .single r => r.errors = []
  | .batch rs => ∀ r ∈ rs, r.errors = []

/-- Escape one character the way `serde_json` does when printing a JSON
string: `"` and `\` get two-character escapes, the common control
characters get their short escapes, the remaining control characters get
`\u00XX`, everything else is copied verbatim. -/
def escapeChar (c : Char) : List Char :=
  if c = '"' then ['\\', '"']
  else if c = '\\' then ['\\', '\\']
  else if c = '\x08' then ['\\', 'b']
  else if c = '\x09' then ['\\', 't']
  else if c = '\x0a' then ['\\', 'n']
  else if c = '\x0c' then ['\\', 'f']
  else if c = '\x0d' then ['\\', 'r']
  else if c.toNat < 32 then
    ['\\', 'u', '0', '0', Nat.digitChar (c.toNat / 16), Nat.digitChar (c.toNat % 16)]
  else [c]

/-- Escape a whole string body. -/
def escapeStr (s : List Char) : List Char :=
  match s with
  | [] => []
  | c :: rest => escapeChar c ++ escapeStr rest

/-- Decimal digits of a natural number, most significant first. -/
def natChars (n : Nat) : List Char :=
  if _h : n < 10 then [Nat.digitChar n]
  else natChars (n / 10) ++ [Nat.digitChar (n % 10)]
decreasing_by exact Nat.div_lt_self (by omega) (by omega)

/-- Decimal rendering of an integer (minus sign for negatives). -/
def intChars (n : Int) : List Char :=
  if n < 0 then '-' :: natChars (-n).toNat else natChars n.toNat

mutual

/-- Compact JSON serialization of a `JValue`, as a character list
(mirrors `serde_json::to_string`). -/
def encode : JValue → List Char
  | .null => 'n' :: ['u', 'l', 'l']
  | .bool true => 't' :: ['r', 'u', 'e']
  | .bool false => 'f' :: ['a', 'l', 's', 'e']
  | .num n => intChars n
  | .str s => '"' :: escapeStr s.data ++ ['"']
  | .arr [] => ['[', ']']
  | .arr (x :: xs) => '[' :: encode x ++ encodeTail xs
  | .obj [] => ['\x7b', '\x7d']
  | .obj (m :: ms) => '\x7b' :: encodeMem m ++ encodeMemsTail ms

/-- The remaining elements of a non-empty array, each preceded by a comma,
closed by the bracket. -/
def encodeTail : List JValue → List Char
  | [] => [']']
  | x :: xs => ',' :: encode x ++ encodeTail xs

/-- One object member: quoted escaped key, colon, value. -/
def encodeMem : String × JValue → List Char
  | (k, v) => '"' :: escapeStr k.data ++ '"' :: ':' :: encode v

/-- The remaining members of a non-empty object, each preceded by a comma,
closed by the brace. -/
def encodeMemsTail : List (String × JValue) → List Char
  | [] => ['\x7d']
  | m :: ms => ',' :: encodeMem m ++ encodeMemsTail ms

end

/-- JSON serialization as a `String` (`serde_json::to_string`). -/
def encodeString (v : JValue) : String :=
  String.mk (encode v)

/-- `serde_json::to_string(&resp)` for a single response. -/
def serializeResponse (r : Response) : String :=
  encodeString r.toJson

/-- `serde_json::to_string(&resp)` for a batch response. -/
def serializeBatch (b : BatchResponse) : String :=
  encodeString b.toJson

/-- Payload of a tauri event emission: the subscription loop emits either a
JSON-stringified response or the terminating JSON null
(`Option::<()>::None`). -/
inductive EmitPayload where
  | str (s : String) : EmitPayload
  | null : EmitPayload
deriving DecidableEq

/-- Value carried by a resolved invocation: the graphql arm resolves with a
`(serialized, ok)` pair, the subscriptions arm resolves with unit. -/
inductive ResolveVal where
  | pair (s : String) (ok : Bool) : ResolveVal
  | unit : ResolveVal
deriving DecidableEq

/-- One observable action of the handler on the host transport, in temporal
order: an event emission on a named channel, a resolution of the
invocation's result channel, or its rejection. -/
inductive Action where
  | emit (channel : String) (payload : EmitPayload) : Action
  | resolve (v : ResolveVal) : Action
  | reject (e : String) : Action
deriving DecidableEq

/-- Whether an action resolves the invocation. -/
def Action.isResolve : Action → Bool
  | .resolve _ => true
  | _ => false

/-- Whether an action is an event emission. -/
def Action.isEmit : Action → Bool
  | .emit _ _ => true
  | _ => false

/-- The event channel derived for subscription id `n`:
`format!("graphql://\x7b\x7d", req.id)`. -/
def channelName (n : Nat) : String :=
  "graphql://" ++ toString n

/-- The payloads emitted on channel `ch`, in order, by a trace. -/
def emitsOn (ch : String) : List Action → List EmitPayload
  | [] => []
  | .emit c p :: tr => if c = ch then p :: emitsOn ch tr else emitsOn ch tr
  | .resolve _ :: tr => emitsOn ch tr
  | .reject _ :: tr => emitsOn ch tr

/-- The body of the `while let Some(result) = stream.next().await` loop of
the subscriptions arm, plus the trailing sentinel emission and `Ok(())`.
`ser` is `serde_json::to_string` on one stream item (fallible);
`emit k` is the outcome of the k-th `window.emit` call of this invocation.
Each `?` failure rejects the invocation and stops the loop. -/
def subLoop (ch : String) (ser : Response → Except String String)
    (emit : Nat → Except String Unit) : List Response → Nat → List Action
  | [], k =>
    match emit k with
    | .ok _ => [.emit ch .null, .resolve .unit]
    | .error e => [.reject e]
  | r :: rs, k =>
    match ser r with
    | .error e => [.reject e]
    | .ok s =>
      match emit k with
      | .error e => [.reject e]
      | .ok _ => .emit ch (.str s) :: subLoop ch ser emit rs (k + 1)

/-- The `"graphql"` arm of the invoke handler: decode the payload as a
`BatchRequest` (rejecting on failure), execute it against the schema
(`engine`), serialize the response, and resolve with
`(serialized, resp.is_ok())`. -/
def graphqlArm (payload : Json) (engine : BatchRequest → BatchResponse)
    (ser : BatchResponse → Except String String) : List Action :=
  match decodeBatchRequest payload with
  | .error e => [.reject e]
  | .ok req =>
    match ser (engine req) with
    | .error e => [.reject e]
    | .ok s => [.resolve (.pair s (engine req).isOk)]

/-- The `"subscriptions"` arm: decode the payload as a
`SubscriptionRequest` (rejecting on failure), open the engine's result
stream (`stream`, already drained to a list), and run the emission loop on
channel `graphql://id`. -/
def subscriptionsArm (payload : Json) (stream : Request → List Response)
    (ser : Response → Except String String)
    (emit : Nat → Except String Unit) : List Action :=
  match decodeSubscriptionRequest payload with
  | .error e => [.reject e]
  | .ok req => subLoop (channelName req.id) ser emit (stream req.inner) 0

/-- The rejection message of the unknown-command arm. -/
def invalidEndpointMsg (cmd : String) : String :=
  "Invalid endpoint \"" ++ cmd ++ "\". Valid endpoints are: \"graphql\", \"subscriptions\"."

/-- The whole invoke handler installed by `init`: dispatch on the command
name, observed as the trace of transport actions of the invocation. -/
def invokeHandler (cmd : String) (payload : Json)
    (engine : BatchRequest → BatchResponse)
    (stream : Request → List Response)
    (serB : BatchResponse → Except String String)
    (serR : Response → Except String String)
    (emit : Nat → Except String Unit) : List Action :=
  if cmd = "graphql" then graphqlArm payload engine serB
  else if cmd = "subscriptions" then subscriptionsArm payload stream serR emit
  else [.reject (invalidEndpointMsg cmd)]

/-- The serializer arms actually use: `serde_json::to_string` on a single
response, which on this response model always succeeds. -/
def serR0 : Response → Except String String :=
  fun r => .ok (serializeResponse r)

/-- `serde_json::to_string` on a batch response. -/
def serB0 : BatchResponse → Except String String :=
  fun b => .ok (serializeBatch b)

/-- An emission oracle under which every `window.emit` call succeeds. -/
def emitOk : Nat → Except String Unit :=
  fun _ => .ok ()

/-! Helper lemmas about the response flag and the emission loop. -/

theorem response_isOk_iff (r : Response) : r.isOk = true ↔ r.errors = [] := by
  simp [Response.isOk, List.isEmpty_iff]

theorem batchResponse_isOk_iff (b : BatchResponse) : b.isOk = true ↔ b.NoErrors := by
  cases b with
  | single r => simpa [BatchResponse.isOk, BatchResponse.NoErrors] using response_isOk_iff r
  | batch rs =>
    simp only [BatchResponse.isOk, BatchResponse.NoErrors, List.all_eq_true]
    exact forall_congr' fun r => forall_congr' fun _ => response_isOk_iff r

theorem emitsOn_append (ch : String) (a b : List Action) :
    emitsOn ch (a ++ b) = emitsOn ch a ++ emitsOn ch b := by
  induction a with
  | nil => rfl
  | cons x a ih =>
    cases x with
    | emit c p =>
      by_cases h : c = ch
      · simp [emitsOn, h, ih]
      · simp [emitsOn, h, ih]
    | resolve v => simpa [emitsOn] using ih
    | reject e => simpa [emitsOn] using ih

theorem emitsOn_map {α : Type} (ch : String) (xs : List α) (f : α → EmitPayload) :
    emitsOn ch (xs.map fun x => Action.emit ch (f x)) = xs.map f := by
  induction xs with
  | nil => rfl
  | cons x xs ih => simp [emitsOn, ih]

/-- When every item serializes and every emission succeeds, the loop emits
each serialized item in order, then the null sentinel, then resolves. -/
theorem subLoop_all_ok (ch : String) (ser : Response → Except String String)
    (emit : Nat → Except String Unit) (strOf : Response → String)
    (rs : List Response) (k : Nat)
    (hser : ∀ r ∈ rs, ser r = .ok (strOf r)) (hemit : ∀ m, emit m = .ok ()) :
    subLoop ch ser emit rs k =
      rs.map (fun r => Action.emit ch (.str (strOf r))) ++
        [.emit ch .null, .resolve .unit] := by
  induction rs generalizing k with
  | nil => simp [subLoop, hemit k]
  | cons r rs ih =>
    have h1 : ser r = .ok (strOf r) := hser r (by simp)
    simp [subLoop, h1, hemit k, ih (k + 1) fun x hx => hser x (by simp [hx])]

/-- When the items before `bad` serialize and emit fine but `bad` fails to
serialize, the loop stops at the rejection: earlier events stay emitted, no
later item and no sentinel is emitted. -/
theorem subLoop_ser_fail (ch : String) (ser : Response → Except String String)
    (emit : Nat → Except String Unit) (strOf : Response → String)
    (pre : List Response) (bad : Response) (rest : List Response) (e : String) (k : Nat)
    (hser : ∀ r ∈ pre, ser r = .ok (strOf r)) (hemit : ∀ m, emit m = .ok ())
    (hbad : ser bad = .error e) :
    subLoop ch ser emit (pre ++ bad :: rest) k =
      pre.map (fun r => Action.emit ch (.str (strOf r))) ++ [.reject e] := by
  induction pre generalizing k with
  | nil => simp [subLoop, hbad]
  | cons r pre ih =>
    have h1 : ser r = .ok (strOf r) := hser r (by simp)
    simp [subLoop, h1, hemit k, ih (k + 1) fun x hx => hser x (by simp [hx])]

/-- Every run of the loop is a block of string emissions on its channel
followed either by the sentinel-and-resolve ending or by a single
rejection. -/
theorem subLoop_shape (ch : String) (ser : Response → Except String String)
    (emit : Nat → Except String Unit) (rs : List Response) (k : Nat) :
    (∃ ss : List String, subLoop ch ser emit rs k =
        ss.map (fun s => Action.emit ch (.str s)) ++ [.emit ch .null, .resolve .unit]) ∨
    (∃ (ss : List String) (e : String), subLoop ch ser emit rs k =
        ss.map (fun s => Action.emit ch (.str s)) ++ [.reject e]) := by
  induction rs generalizing k with
  | nil =>
    cases h : emit k with
    | ok _ => exact Or.inl ⟨[], by simp [subLoop, h]⟩
    | error e => exact Or.inr ⟨[], e, by simp [subLoop, h]⟩
  | cons r rs ih =>
    cases hs : ser r with
    | error e => exact Or.inr ⟨[], e, by simp [subLoop, hs]⟩
    | ok s =>
      cases he : emit k with
      | error e => exact Or.inr ⟨[], e, by simp [subLoop, hs, he]⟩
      | ok _ =>
        rcases ih (k + 1) with ⟨ss, hss⟩ | ⟨ss, e, hss⟩
        · exact Or.inl ⟨s :: ss, by simp [subLoop, hs, he, hss]⟩
        · exact Or.inr ⟨s :: ss, e, by simp [subLoop, hs, he, hss]⟩

/-- Field lookup in a serialized-side JSON object. -/
def lookupFieldJ (ms : List (String × JValue)) (k : String) : Option JValue :=
  match ms with
  | [] => none
  | (k', v) :: rest => if k' = k then some v else lookupFieldJ rest k

mutual

/-- The error entries visible in a serialized response structure: the
`errors` array of an object, collected across the elements of a batch
array. -/
def JValue.errorsOf : JValue → List JValue
  | .obj ms =>
    match lookupFieldJ ms "errors" with
    | some (.arr es) => es
    | _ => []
  | .arr xs => errorsOfList xs
  | _ => []

/-- `errorsOf` collected over a list of serialized responses. -/
def errorsOfList : List JValue → List JValue
  | [] => []
  | x :: xs => x.errorsOf ++ errorsOfList xs

end

theorem response_errorsOf (r : Response) (h : r.isOk = false) :
    (Response.toJson r).errorsOf = r.errors.map ServerError.toJson := by
  have he : r.errors.isEmpty = false := h
  simp [Response.toJson, he, JValue.errorsOf, lookupFieldJ]

theorem errorsOfList_ne_nil (rs : List Response) (h : ∃ r ∈ rs, r.isOk = false) :
    errorsOfList (rs.map Response.toJson) ≠ [] := by
  induction rs with
  | nil => simp at h
  | cons r rs ih =>
    rcases h with ⟨x, hx, hfail⟩
    rcases List.mem_cons.mp hx with rfl | hx
    · have hne : x.errors ≠ [] := by
        intro hnil
        have := (response_isOk_iff x).mpr hnil
        simp [this] at hfail
      simp only [List.map_cons, errorsOfList, ne_eq, List.append_eq_nil]
      intro ⟨h1, _⟩
      exact hne (by simpa [response_errorsOf x hfail] using h1)
    · simp only [List.map_cons, errorsOfList, ne_eq, List.append_eq_nil]
      intro ⟨_, h2⟩
      exact ih ⟨x, hx, hfail⟩ h2

/-- A response with a false success flag serializes to a structure whose
visible `errors` are non-empty. -/
theorem batch_errorsOf_ne_nil (b : BatchResponse) (h : b.isOk = false) :
    (b.toJson).errorsOf ≠ [] := by
  cases b with
  | single r =>
    have hr : r.isOk = false := h
    have hne : r.errors ≠ [] := by
      intro hnil
      have := (response_isOk_iff r).mpr hnil
      simp [this] at hr
    simp [BatchResponse.toJson, response_errorsOf r hr, hne]
  | batch rs =>
    have : ∃ r ∈ rs, r.isOk = false := by
      have := List.all_eq_false.mp h
      simpa using this
    simpa [BatchResponse.toJson, JValue.errorsOf] using errorsOfList_ne_nil rs this

/-! The claims. -/

/-- C1: for every graphql invocation whose payload decodes to a valid batch
request, the invocation resolves with a pair (s, ok) where s is the JSON
serialization of the engine's response and ok is true iff the response
contains no errors. -/
theorem graphql_resolves_serialized_pair (payload : Json)
    (engine : BatchRequest → BatchResponse) (ser : BatchResponse → Except String String)
    (req : BatchRequest) (s : String)
    (hdec : decodeBatchRequest payload = .ok req)
    (hser : ser (engine req) = .ok s) :
    graphqlArm payload engine ser = [.resolve (.pair s (engine req).isOk)] ∧
      ((engine req).isOk = true ↔ (engine req).NoErrors) :=
  ⟨by simp [graphqlArm, hdec, hser], batchResponse_isOk_iff (engine req)⟩

theorem graphql_resolves_serialized_pair_witness :
    graphqlArm (.obj [("query", .str "q")])
        (fun _ => .single ⟨.null, []⟩) (fun _ => .ok "x") =
      [.resolve (.pair "x" true)] ∧
      ((BatchResponse.single ⟨.null, []⟩).isOk = true ↔
        (BatchResponse.single ⟨.null, []⟩).NoErrors) :=
  graphql_resolves_serialized_pair _ _ _ (.single ⟨"q", none, []⟩) "x" rfl rfl

/-- C3: a graphql invocation whose response carries GraphQL-level execution
errors still resolves (never rejects) with success flag false, the errors
staying visible inside the serialized payload. -/
theorem graphql_errors_resolve_not_reject (payload : Json)
    (engine : BatchRequest → BatchResponse) (req : BatchRequest)
    (hdec : decodeBatchRequest payload = .ok req)
    (herr : (engine req).isOk = false) :
    graphqlArm payload engine serB0 =
      [.resolve (.pair (serializeBatch (engine req)) false)] ∧
      ((engine req).toJson).errorsOf ≠ [] := by
  constructor
  · simp [graphqlArm, hdec, serB0, herr]
  · exact batch_errorsOf_ne_nil _ herr

theorem graphql_errors_resolve_not_reject_witness :
    graphqlArm (.obj [("query", .str "q")])
        (fun _ => .single ⟨.null, [⟨"boom"⟩]⟩) serB0 =
      [.resolve (.pair (serializeBatch (.single ⟨.null, [⟨"boom"⟩]⟩)) false)] ∧
      ((BatchResponse.single ⟨.null, [⟨"boom"⟩]⟩).toJson).errorsOf ≠ [] :=
  graphql_errors_resolve_not_reject _ _ (.single ⟨"q", none, []⟩) rfl rfl

/-- C5: a payload that does not decode to the expected request shape makes
the invocation reject (never resolve), carrying the decode error detail,
on both the graphql and the subscriptions arm. -/
theorem decode_failure_rejects (payload : Json)
    (engine : BatchRequest → BatchResponse) (stream : Request → List Response)
    (serB : BatchResponse → Except String String) (serR : Response → Except String String)
    (emit : Nat → Except String Unit) (e1 e2 : String)
    (h1 : decodeBatchRequest payload = .error e1)
    (h2 : decodeSubscriptionRequest payload = .error e2) :
    graphqlArm payload engine serB = [.reject e1] ∧
      subscriptionsArm payload stream serR emit = [.reject e2] :=
  ⟨by simp [graphqlArm, h1], by simp [subscriptionsArm, h2]⟩

theorem decode_failure_rejects_witness :
    graphqlArm (.num 3) (fun _ => .single ⟨.null, []⟩) serB0 =
      [.reject "data did not match any variant of untagged enum BatchRequest"] ∧
      subscriptionsArm (.num 3) (fun _ => []) serR0 emitOk =
        [.reject "invalid type: expected a map for SubscriptionRequest"] :=
  decode_failure_rejects _ _ _ _ _ _ _ _ rfl rfl

/-- C6: an invocation with an unknown command name is rejected with a
message containing that name and both valid command names, with no event
emission (and, the engine being arbitrary here, no schema execution). -/
theorem unknown_command_rejects (cmd : String) (payload : Json)
    (engine : BatchRequest → BatchResponse) (stream : Request → List Response)
    (serB : BatchResponse → Except String String) (serR : Response → Except String String)
    (emit : Nat → Except String Unit)
    (h1 : cmd ≠ "graphql") (h2 : cmd ≠ "subscriptions") :
    invokeHandler cmd payload engine stream serB serR emit =
      [.reject (invalidEndpointMsg cmd)] ∧
    cmd.data <:+: (invalidEndpointMsg cmd).data ∧
    "graphql".data <:+: (invalidEndpointMsg cmd).data ∧
    "subscriptions".data <:+: (invalidEndpointMsg cmd).data ∧
    ∀ a ∈ invokeHandler cmd payload engine stream serB serR emit, a.isEmit = false := by
  have hdata : (invalidEndpointMsg cmd).data =
      "Invalid endpoint \"".data ++ cmd.data ++
        "\". Valid endpoints are: \"graphql\", \"subscriptions\".".data := by
    simp [invalidEndpointMsg, String.data_append]
  have htr : invokeHandler cmd payload engine stream serB serR emit =
      [.reject (invalidEndpointMsg cmd)] := by
    simp [invokeHandler, h1, h2]
  refine ⟨htr, ?_, ?_, ?_, ?_⟩
  · exact ⟨"Invalid endpoint \"".data,
      "\". Valid endpoints are: \"graphql\", \"subscriptions\".".data, by rw [hdata]⟩
  · refine ⟨"Invalid endpoint \"".data ++ cmd.data ++ "\". Valid endpoints are: \"".data,
      "\", \"subscriptions\".".data, ?_⟩
    rw [hdata]
    have : "\". Valid endpoints are: \"graphql\", \"subscriptions\".".data =
        "\". Valid endpoints are: \"".data ++ "graphql".data ++ "\", \"subscriptions\".".data := by
      decide
    rw [this]
    simp [List.append_assoc]
  · refine ⟨"Invalid endpoint \"".data ++ cmd.data ++
        "\". Valid endpoints are: \"graphql\", \"".data, "\".".data, ?_⟩
    rw [hdata]
    have : "\". Valid endpoints are: \"graphql\", \"subscriptions\".".data =
        "\". Valid endpoints are: \"graphql\", \"".data ++ "subscriptions".data ++ "\".".data := by
      decide
    rw [this]
    simp [List.append_assoc]
  · intro a ha
    rw [htr] at ha
    simp at ha
    simp [ha, Action.isEmit]

theorem unknown_command_rejects_witness :
    invokeHandler "foo" (.num 3) (fun _ => .single ⟨.null, []⟩) (fun _ => [])
        serB0 serR0 emitOk = [.reject (invalidEndpointMsg "foo")] ∧
    "foo".data <:+: (invalidEndpointMsg "foo").data ∧
    "graphql".data <:+: (invalidEndpointMsg "foo").data ∧
    "subscriptions".data <:+: (invalidEndpointMsg "foo").data :=
  have h := unknown_command_rejects "foo" (.num 3) (fun _ => .single ⟨.null, []⟩)
    (fun _ => []) serB0 serR0 emitOk (by decide) (by decide)
  ⟨h.1, h.2.1, h.2.2.1, h.2.2.2.1⟩

/-- C10: a subscriptions payload whose id field is a negative, non-integral
or out-of-u32-range number fails to decode, and the invocation rejects with
the decode error. -/
theorem subscription_id_u32_bounds (ms : List (String × Json)) (q : Rat)
    (stream : Request → List Response) (serR : Response → Except String String)
    (emit : Nat → Except String Unit)
    (hid : lookupField ms "id" = some (.num q))
    (hbad : q.den ≠ 1 ∨ q.num < 0 ∨ 4294967295 < q.num) :
    decodeSubscriptionRequest (.obj ms) = .error "invalid value for field id: expected u32" ∧
      subscriptionsArm (.obj ms) stream serR emit =
        [.reject "invalid value for field id: expected u32"] := by
  have hguard : ¬ (q.den = 1 ∧ 0 ≤ q.num ∧ q.num < 4294967296) := by
    rcases hbad with h | h | h
    · exact fun hc => h hc.1
    · exact fun hc => by omega
    · exact fun hc => by omega
  have hdec : decodeSubscriptionRequest (.obj ms) =
      .error "invalid value for field id: expected u32" := by
    simp only [decodeSubscriptionRequest, hid]
    rw [if_neg hguard]
  exact ⟨hdec, by simp [subscriptionsArm, hdec]⟩

theorem subscription_id_u32_bounds_witness :
    decodeSubscriptionRequest (.obj [("id", .num (-1))]) =
      .error "invalid value for field id: expected u32" ∧
      subscriptionsArm (.obj [("id", .num (-1))]) (fun _ => []) serR0 emitOk =
        [.reject "invalid value for field id: expected u32"] :=
  subscription_id_u32_bounds [("id", .num (-1))] (-1) (fun _ => []) serR0 emitOk rfl
    (Or.inr (Or.inl (by decide)))

/-- C2: for a subscriptions invocation with id N that decodes and whose
serializations and emissions all succeed, the events observed on channel
graphql://N are the stringified results in engine order followed by exactly
one null, with nothing further on that channel. -/
theorem subscription_event_sequence (payload : Json) (stream : Request → List Response)
    (ser : Response → Except String String) (emit : Nat → Except String Unit)
    (req : SubscriptionRequest) (strOf : Response → String)
    (hdec : decodeSubscriptionRequest payload = .ok req)
    (hser : ∀ r ∈ stream req.inner, ser r = .ok (strOf r))
    (hemit : ∀ m, emit m = .ok ()) :
    emitsOn (channelName req.id) (subscriptionsArm payload stream ser emit) =
      (stream req.inner).map (fun r => EmitPayload.str (strOf r)) ++ [EmitPayload.null] := by
  have hloop := subLoop_all_ok (channelName req.id) ser emit strOf (stream req.inner) 0 hser hemit
  have harm : subscriptionsArm payload stream ser emit =
      subLoop (channelName req.id) ser emit (stream req.inner) 0 := by
    simp [subscriptionsArm, hdec]
  rw [harm, hloop, emitsOn_append,
    emitsOn_map (channelName req.id) (stream req.inner) (fun r => EmitPayload.str (strOf r))]
  simp [emitsOn]

theorem subscription_event_sequence_witness :
    emitsOn (channelName 7)
        (subscriptionsArm (.obj [("query", .str "q"), ("id", .num 7)])
          (fun _ => [⟨.null, []⟩]) (fun _ => .ok "r1") emitOk) =
      [EmitPayload.str "r1", EmitPayload.null] :=
  subscription_event_sequence _ _ _ _ ⟨⟨"q", none, []⟩, 7⟩ (fun _ => "r1") rfl
    (fun _ _ => rfl) (fun _ => rfl)

/-- Concrete subscription run used to settle C4: one stream item, every step
succeeding. -/
def c4Trace : List Action :=
  subscriptionsArm (.obj [("query", .str "subscription counter"), ("id", .num 7)])
    (fun _ => [⟨.null, []⟩]) (fun _ => .ok "r1") (fun _ => .ok ())

/-- C4 (counterexample): the claim says the result channel is resolved as
soon as the stream is opened, before the data events; in this concrete run
the first resolve action comes after the first emission, not before. -/
theorem subscription_ack_not_before_data :
    c4Trace = [.emit "graphql://7" (.str "r1"), .emit "graphql://7" .null, .resolve .unit] ∧
    ¬ (c4Trace.findIdx Action.isResolve < c4Trace.findIdx Action.isEmit) :=
  ⟨rfl, by decide⟩

/-- C4 (amended): the subscriptions invocation is resolved with success only
after the engine's stream is exhausted and the null sentinel emitted: in a
successful run the resolution is the final action, strictly after every
data event. -/
theorem subscription_resolves_after_stream (payload : Json) (stream : Request → List Response)
    (ser : Response → Except String String) (emit : Nat → Except String Unit)
    (req : SubscriptionRequest) (strOf : Response → String)
    (hdec : decodeSubscriptionRequest payload = .ok req)
    (hser : ∀ r ∈ stream req.inner, ser r = .ok (strOf r))
    (hemit : ∀ m, emit m = .ok ()) :
    ∃ evs : List Action, subscriptionsArm payload stream ser emit = evs ++ [.resolve .unit] ∧
      ∀ a ∈ evs, a.isResolve = false := by
  have hloop := subLoop_all_ok (channelName req.id) ser emit strOf (stream req.inner) 0 hser hemit
  refine ⟨(stream req.inner).map (fun r => Action.emit (channelName req.id) (.str (strOf r))) ++
      [.emit (channelName req.id) .null], ?_, ?_⟩
  · rw [show subscriptionsArm payload stream ser emit =
        subLoop (channelName req.id) ser emit (stream req.inner) 0 by
          simp [subscriptionsArm, hdec], hloop]
    simp
  · intro a ha
    rcases List.mem_append.mp ha with h | h
    · rcases List.mem_map.mp h with ⟨r, _, rfl⟩
      rfl
    · simp at h
      simp [h, Action.isResolve]

theorem subscription_resolves_after_stream_witness :
    ∃ evs : List Action, c4Trace = evs ++ [.resolve .unit] ∧
      ∀ a ∈ evs, a.isResolve = false :=
  subscription_resolves_after_stream _ _ _ _ ⟨⟨"subscription counter", none, []⟩, 7⟩
    (fun _ => "r1") rfl (fun _ _ => rfl) (fun _ => rfl)

/-- C7: if one stream item fails to serialize, the whole invocation is
rejected with that serialization error; the events before it stay emitted
and nothing further (no later item, no sentinel) is emitted. -/
theorem item_serialization_failure_aborts (payload : Json) (stream : Request → List Response)
    (ser : Response → Except String String) (emit : Nat → Except String Unit)
    (req : SubscriptionRequest) (strOf : Response → String)
    (pre : List Response) (bad : Response) (rest : List Response) (e : String)
    (hdec : decodeSubscriptionRequest payload = .ok req)
    (hstream : stream req.inner = pre ++ bad :: rest)
    (hser : ∀ r ∈ pre, ser r = .ok (strOf r))
    (hemit : ∀ m, emit m = .ok ())
    (hbad : ser bad = .error e) :
    subscriptionsArm payload stream ser emit =
      pre.map (fun r => Action.emit (channelName req.id) (.str (strOf r))) ++ [.reject e] := by
  have hloop := subLoop_ser_fail (channelName req.id) ser emit strOf pre bad rest e 0
    hser hemit hbad
  rw [show subscriptionsArm payload stream ser emit =
      subLoop (channelName req.id) ser emit (stream req.inner) 0 by
        simp [subscriptionsArm, hdec], hstream, hloop]

theorem item_serialization_failure_aborts_witness :
    subscriptionsArm (.obj [("query", .str "q"), ("id", .num 7)])
        (fun _ => [⟨.null, []⟩]) (fun _ => .error "ser boom") emitOk =
      [.reject "ser boom"] :=
  item_serialization_failure_aborts _ _ _ _ ⟨⟨"q", none, []⟩, 7⟩ (fun _ => "")
    [] ⟨.null, []⟩ [] "ser boom" rfl rfl (fun _ h => absurd h (List.not_mem_nil _))
    (fun _ => rfl) rfl

/-- C9: a subscriptions invocation that ends in a rejection never emits the
null sentinel; its trace is the events already emitted before the failure,
followed by the rejection alone. -/
theorem aborted_subscription_no_sentinel (payload : Json) (stream : Request → List Response)
    (ser : Response → Except String String) (emit : Nat → Except String Unit) (e : String)
    (hrej : Action.reject e ∈ subscriptionsArm payload stream ser emit) :
    (∀ ch, Action.emit ch .null ∉ subscriptionsArm payload stream ser emit) ∧
    (∃ (ch : String) (ss : List String), subscriptionsArm payload stream ser emit =
        ss.map (fun s => Action.emit ch (.str s)) ++ [.reject e]) := by
  cases hd : decodeSubscriptionRequest payload with
  | error e' =>
    have htr : subscriptionsArm payload stream ser emit = [.reject e'] := by
      simp [subscriptionsArm, hd]
    rw [htr] at hrej
    have he : e = e' := by simpa using hrej
    subst he
    exact ⟨fun ch => by simp [htr], "", [], by simp [htr]⟩
  | ok req =>
    have htr : subscriptionsArm payload stream ser emit =
        subLoop (channelName req.id) ser emit (stream req.inner) 0 := by
      simp [subscriptionsArm, hd]
    rcases subLoop_shape (channelName req.id) ser emit (stream req.inner) 0 with
      ⟨ss, hss⟩ | ⟨ss, e', hss⟩
    · exfalso
      rw [htr, hss] at hrej
      rcases List.mem_append.mp hrej with h | h
      · rcases List.mem_map.mp h with ⟨s, _, habs⟩
        exact absurd habs (by simp)
      · simp at h
    · have he : e' = e := by
        rw [htr, hss] at hrej
        rcases List.mem_append.mp hrej with h | h
        · rcases List.mem_map.mp h with ⟨s, _, habs⟩
          exact absurd habs (by simp)
        · have : Action.reject e = Action.reject e' := by simpa using h
          exact (Action.reject.injEq e e' ▸ this).symm
      subst he
      constructor
      · intro ch hmem
        rw [htr, hss] at hmem
        rcases List.mem_append.mp hmem with h | h
        · rcases List.mem_map.mp h with ⟨s, _, habs⟩
          simp at habs
        · simp at h
      · exact ⟨channelName req.id, ss, htr.trans hss⟩

theorem aborted_subscription_no_sentinel_witness :
    (Action.emit "graphql://7" EmitPayload.null ∉
      subscriptionsArm (.obj [("query", .str "q"), ("id", .num 7)])
        (fun _ => [⟨.null, []⟩, ⟨.bool true, []⟩])
        (fun r => match r.data with | .null => .ok "a" | _ => .error "boom") emitOk) ∧
    (∃ (ch : String) (ss : List String),
      subscriptionsArm (.obj [("query", .str "q"), ("id", .num 7)])
        (fun _ => [⟨.null, []⟩, ⟨.bool true, []⟩])
        (fun r => match r.data with | .null => .ok "a" | _ => .error "boom") emitOk =
      ss.map (fun s => Action.emit ch (.str s)) ++ [.reject "boom"]) :=
  have h := aborted_subscription_no_sentinel (.obj [("query", .str "q"), ("id", .num 7)])
    (fun _ => [⟨.null, []⟩, ⟨.bool true, []⟩])
    (fun r => match r.data with | .null => .ok "a" | _ => .error "boom") emitOk "boom"
    (by decide)
  ⟨h.1 "graphql://7", h.2⟩

/-! A JSON decoder for the serialized subset, to state the round-trip claim
about the serializer. -/

/-- Decimal digit test used by the number lexer. -/
def isDigitC (c : Char) : Bool :=
  decide (48 ≤ c.toNat) && decide (c.toNat ≤ 57)

/-- Value of a hexadecimal digit, if the character is one. -/
def hexVal (c : Char) : Option Nat :=
  if 48 ≤ c.toNat ∧ c.toNat ≤ 57 then some (c.toNat - 48)
  else if 97 ≤ c.toNat ∧ c.toNat ≤ 102 then some (c.toNat - 87)
  else if 65 ≤ c.toNat ∧ c.toNat ≤ 70 then some (c.toNat - 55)
  else none

mutual

/-- Parse the body of a JSON string literal up to its closing quote,
handling the escape sequences; returns the decoded characters and the
input remaining after the closing quote. -/
def parseStr : List Char → Option (List Char × List Char)
  | [] => none
  | c :: cs =>
    if c = '"' then some ([], cs)
    else if c = '\\' then parseEsc cs
    else (parseStr cs).map (fun p => (c :: p.1, p.2))
termination_by cs => cs.length

/-- Decode the character after a backslash. -/
def parseEsc : List Char → Option (List Char × List Char)
  | [] => none
  | e :: cs =>
    if e = '"' then (parseStr cs).map (fun p => ('"' :: p.1, p.2))
    else if e = '\\' then (parseStr cs).map (fun p => ('\\' :: p.1, p.2))
    else if e = '/' then (parseStr cs).map (fun p => ('/' :: p.1, p.2))
    else if e = 'b' then (parseStr cs).map (fun p => ('\x08' :: p.1, p.2))
    else if e = 'f' then (parseStr cs).map (fun p => ('\x0c' :: p.1, p.2))
    else if e = 'n' then (parseStr cs).map (fun p => ('\x0a' :: p.1, p.2))
    else if e = 'r' then (parseStr cs).map (fun p => ('\x0d' :: p.1, p.2))
    else if e = 't' then (parseStr cs).map (fun p => ('\x09' :: p.1, p.2))
    else if e = 'u' then parseHex cs
    else none
termination_by cs => cs.length

/-- Decode a four-hex-digits unicode escape. -/
def parseHex : List Char → Option (List Char × List Char)
  | h1 :: h2 :: h3 :: h4 :: cs =>
    match hexVal h1, hexVal h2, hexVal h3, hexVal h4 with
    | some v1, some v2, some v3, some v4 =>
      (parseStr cs).map (fun p =>
        (Char.ofNat (v1 * 4096 + v2 * 256 + v3 * 16 + v4) :: p.1, p.2))
    | _, _, _, _ => none
  | _ => none
termination_by cs => cs.length

end

theorem hexVal_digitChar (m : Nat) (h : m < 16) : hexVal (Nat.digitChar m) = some m := by
  interval_cases m <;> rfl

/-- The escape printer and the string-body parser cancel. -/
theorem parseStr_escape (s rest : List Char) :
    parseStr (escapeStr s ++ '"' :: rest) = some (s, rest) := by
  induction s with
  | nil => simp [escapeStr, parseStr]
  | cons c s ih =>
    show parseStr ((escapeChar c ++ escapeStr s) ++ '"' :: rest) = _
    rw [List.append_assoc]
    by_cases h1 : c = '"'
    · subst h1; simp [escapeChar, parseStr, parseEsc, ih]
    · by_cases h2 : c = '\\'
      · subst h2; simp [escapeChar, parseStr, parseEsc, ih]
      · by_cases h3 : c = '\x08'
        · subst h3; simp [escapeChar, parseStr, parseEsc, ih]
        · by_cases h4 : c = '\x09'
          · subst h4; simp [escapeChar, parseStr, parseEsc, ih]
          · by_cases h5 : c = '\x0a'
            · subst h5; simp [escapeChar, parseStr, parseEsc, ih]
            · by_cases h6 : c = '\x0c'
              · subst h6; simp [escapeChar, parseStr, parseEsc, ih]
              · by_cases h7 : c = '\x0d'
                · subst h7; simp [escapeChar, parseStr, parseEsc, ih]
                · by_cases h8 : c.toNat < 32
                  · have hdiv : c.toNat / 16 < 16 := by omega
                    have hmod : c.toNat % 16 < 16 := by omega
                    have hchar : Char.ofNat (c.toNat / 16 * 16 + c.toNat % 16) = c := by
                      have ht : c.toNat / 16 * 16 + c.toNat % 16 = c.toNat := by omega
                      rw [ht]
                      exact Char.ofNat_toNat c
                    simp only [escapeChar, if_neg h1, if_neg h2, if_neg h3, if_neg h4,
                      if_neg h5, if_neg h6, if_neg h7, if_pos h8, List.cons_append,
                      List.nil_append]
                    have hv0 : hexVal '0' = some 0 := rfl
                    simp [parseStr, parseEsc, parseHex, hv0,
                      hexVal_digitChar _ hdiv, hexVal_digitChar _ hmod, ih, hchar]
                  · simp only [escapeChar, if_neg h1, if_neg h2, if_neg h3, if_neg h4,
                      if_neg h5, if_neg h6, if_neg h7, if_neg h8, List.cons_append,
                      List.nil_append]
                    simp [parseStr, h1, h2, ih]

/-- Longest digit prefix of the input, and the remainder. -/
def takeDigits : List Char → List Char × List Char
  | [] => ([], [])
  | c :: cs =>
    if isDigitC c then
      let p := takeDigits cs
      (c :: p.1, p.2)
    else ([], c :: cs)

/-- Numeric value of a digit string. -/
def digitsToNat (ds : List Char) : Nat :=
  ds.foldl (fun a c => 10 * a + (c.toNat - 48)) 0

/-- The input does not begin with a decimal digit (so a preceding number
literal ends exactly there). -/
def NoDigitHead (cs : List Char) : Prop :=
  ∀ c, cs.head? = some c → isDigitC c = false

theorem noDigitHead_nil : NoDigitHead [] := fun c h => by simp at h

theorem noDigitHead_cons (c : Char) (cs : List Char) (h : isDigitC c = false) :
    NoDigitHead (c :: cs) := by
  intro d hd
  simp at hd
  subst hd
  exact h

theorem digitChar_isDigit (m : Nat) (h : m < 10) : isDigitC (Nat.digitChar m) = true := by
  interval_cases m <;> rfl

theorem digitChar_toNat (m : Nat) (h : m < 10) : (Nat.digitChar m).toNat = 48 + m := by
  interval_cases m <;> rfl

theorem natChars_all_digits (n : Nat) : ∀ c ∈ natChars n, isDigitC c = true := by
  induction n using Nat.strong_induction_on with
  | _ n ih =>
    rw [natChars]
    split
    · intro c hc
      simp at hc
      subst hc
      exact digitChar_isDigit n (by omega)
    · intro c hc
      have hlt : n / 10 < n := by omega
      rcases List.mem_append.mp hc with h | h
      · exact ih (n / 10) hlt c h
      · simp at h
        subst h
        exact digitChar_isDigit (n % 10) (by omega)

theorem natChars_ne_nil (n : Nat) : natChars n ≠ [] := by
  rw [natChars]
  split
  · simp
  · simp

theorem digitsToNat_append_one (xs : List Char) (c : Char) :
    digitsToNat (xs ++ [c]) = 10 * digitsToNat xs + (c.toNat - 48) := by
  simp [digitsToNat, List.foldl_append]

theorem digitsToNat_natChars (n : Nat) : digitsToNat (natChars n) = n := by
  induction n using Nat.strong_induction_on with
  | _ n ih =>
    rw [natChars]
    split
    · have := digitChar_toNat n (by omega)
      simp [digitsToNat, this]
    · have hlt : n / 10 < n := by omega
      rw [digitsToNat_append_one, ih (n / 10) hlt, digitChar_toNat (n % 10) (by omega)]
      omega

theorem takeDigits_append (ds rest : List Char)
    (hd : ∀ c ∈ ds, isDigitC c = true) (hr : NoDigitHead rest) :
    takeDigits (ds ++ rest) = (ds, rest) := by
  induction ds with
  | nil =>
    cases rest with
    | nil => rfl
    | cons c cs =>
      have := hr c rfl
      simp [takeDigits, this]
  | cons d ds ih =>
    have h1 : isDigitC d = true := hd d (by simp)
    simp [takeDigits, h1, ih fun c hc => hd c (by simp [hc])]

/-- Match an expected literal tail, returning the remaining input. -/
def expectChars : List Char → List Char → Option (List Char)
  | [], cs => some cs
  | _ :: _, [] => none
  | l :: ls, c :: cs => if c = l then expectChars ls cs else none

theorem expectChars_append (ls rest : List Char) :
    expectChars ls (ls ++ rest) = some rest := by
  induction ls with
  | nil => rfl
  | cons l ls ih => simp [expectChars, ih]

mutual

/-- Recursive-descent parser for one JSON value of the serialized subset
(fuel-indexed to bound the recursion; `decodeChars` supplies enough fuel
for any input it can accept). -/
def parseVal : Nat → List Char → Option (JValue × List Char)
  | 0, _ => none
  | _ + 1, [] => none
  | f + 1, c :: cs =>
    if c = 'n' then (expectChars ['u', 'l', 'l'] cs).map (fun r => (JValue.null, r))
    else if c = 't' then (expectChars ['r', 'u', 'e'] cs).map (fun r => (JValue.bool true, r))
    else if c = 'f' then (expectChars ['a', 'l', 's', 'e'] cs).map (fun r => (JValue.bool false, r))
    else if c = '"' then (parseStr cs).map (fun p => (JValue.str (String.mk p.1), p.2))
    else if c = '[' then parseArrBody f cs
    else if c = '\x7b' then parseObjBody f cs
    else if c = '-' then
      let p := takeDigits cs
      if p.1.isEmpty then none
      else some (JValue.num (-(digitsToNat p.1 : Int)), p.2)
    else if isDigitC c then
      let p := takeDigits (c :: cs)
      some (JValue.num ((digitsToNat p.1 : Nat) : Int), p.2)
    else none
termination_by f _ => (f, 0)

/-- The inside of an array literal, just after the opening bracket. -/
def parseArrBody : Nat → List Char → Option (JValue × List Char)
  | _, [] => none
  | f, d :: ds =>
    if d = ']' then some (.arr [], ds)
    else
      match parseVal f (d :: ds) with
      | some (v, r) =>
        match parseItems f r with
        | some (vs, r') => some (.arr (v :: vs), r')
        | none => none
      | none => none
termination_by f _ => (f, 3)

/-- The inside of an object literal, just after the opening brace. -/
def parseObjBody : Nat → List Char → Option (JValue × List Char)
  | _, [] => none
  | f, d :: ds =>
    if d = '\x7d' then some (.obj [], ds)
    else
      match parseObjMember f (d :: ds) with
      | some (m, r) =>
        match parseMems f r with
        | some (ms, r') => some (.obj (m :: ms), r')
        | none => none
      | none => none
termination_by f _ => (f, 3)

/-- One object member: quoted key, colon, value. -/
def parseObjMember : Nat → List Char → Option ((String × JValue) × List Char)
  | _, [] => none
  | f, d :: ds =>
    if d = '"' then
      match parseStr ds with
      | some (k, r) =>
        match r with
        | [] => none
        | c2 :: r' =>
          if c2 = ':' then
            match parseVal f r' with
            | some (v, r'') => some ((String.mk k, v), r'')
            | none => none
          else none
      | none => none
    else none
termination_by f _ => (f, 1)

/-- The elements of an array after the first: comma-separated values until
the closing bracket. -/
def parseItems : Nat → List Char → Option (List JValue × List Char)
  | 0, _ => none
  | _ + 1, [] => none
  | f + 1, c :: cs =>
    if c = ']' then some ([], cs)
    else if c = ',' then
      match parseVal f cs with
      | some (v, r) =>
        match parseItems f r with
        | some (vs, r') => some (v :: vs, r')
        | none => none
      | none => none
    else none
termination_by f _ => (f, 2)

/-- The members of an object after the first: comma-separated members until
the closing brace. -/
def parseMems : Nat → List Char → Option (List (String × JValue) × List Char)
  | 0, _ => none
  | _ + 1, [] => none
  | f + 1, c :: cs =>
    if c = '\x7d' then some ([], cs)
    else if c = ',' then
      match parseObjMember f cs with
      | some (m, r) =>
        match parseMems f r with
        | some (ms, r') => some (m :: ms, r')
        | none => none
      | none => none
    else none
termination_by f _ => (f, 2)

end

/-- Decode an entire character list as one JSON value (no trailing input
allowed). -/
def decodeChars (cs : List Char) : Option JValue :=
  match parseVal (2 * cs.length + 2) cs with
  | some (v, []) => some v
  | _ => none

/-- `decode`: parse a JSON string back into a structure
(the inverse direction of `serde_json::to_string` for the serialized
subset). -/
def decodeString (s : String) : Option JValue :=
  decodeChars s.data

mutual

/-- Fuel sufficient for `parseVal` to traverse a value. -/
def fuelB : JValue → Nat
  | .arr xs => 1 + fuelList xs
  | .obj ms => 1 + fuelMems ms
  | _ => 1

/-- Fuel sufficient for `parseItems` to traverse the tail of an array. -/
def fuelList : List JValue → Nat
  | [] => 1
  | x :: xs => 1 + fuelB x + fuelList xs

/-- Fuel sufficient for `parseMems` to traverse the tail of an object. -/
def fuelMems : List (String × JValue) → Nat
  | [] => 1
  | m :: ms => 1 + fuelB m.2 + fuelMems ms

end

theorem string_mk_data (s : String) : String.mk s.data = s := rfl

theorem fuelB_pos (v : JValue) : 1 ≤ fuelB v := by
  cases v <;> simp [fuelB]

theorem fuelList_pos (xs : List JValue) : 1 ≤ fuelList xs := by
  cases xs with
  | nil => simp [fuelList]
  | cons x xs => simp [fuelList]; omega

theorem fuelMems_pos (ms : List (String × JValue)) : 1 ≤ fuelMems ms := by
  cases ms with
  | nil => simp [fuelMems]
  | cons m ms => simp [fuelMems]; omega

theorem isDigitC_ne (d : Char) (h : isDigitC d = true) :
    d ≠ 'n' ∧ d ≠ 't' ∧ d ≠ 'f' ∧ d ≠ '"' ∧ d ≠ '[' ∧ d ≠ '\x7b' ∧ d ≠ '-' ∧ d ≠ ']' := by
  have hb : 48 ≤ d.toNat ∧ d.toNat ≤ 57 := by simpa [isDigitC] using h
  refine ⟨?_, ?_, ?_, ?_, ?_, ?_, ?_, ?_⟩ <;> rintro rfl <;> revert hb <;> decide

theorem encode_head_ne_rbracket (v : JValue) :
    ∃ c cs, encode v = c :: cs ∧ c ≠ ']' := by
  cases v with
  | null => exact ⟨'n', ['u', 'l', 'l'], rfl, by decide⟩
  | bool b =>
    cases b
    · exact ⟨'f', ['a', 'l', 's', 'e'], rfl, by decide⟩
    · exact ⟨'t', ['r', 'u', 'e'], rfl, by decide⟩
  | num n =>
    by_cases hn : n < 0
    · exact ⟨'-', natChars (-n).toNat, by simp [encode, intChars, hn], by decide⟩
    · cases hnc : natChars n.toNat with
      | nil => exact absurd hnc (natChars_ne_nil n.toNat)
      | cons d ds =>
        have hdig : isDigitC d = true :=
          natChars_all_digits n.toNat d (by rw [hnc]; simp)
        exact ⟨d, ds, by simp [encode, intChars, hn, hnc], (isDigitC_ne d hdig).2.2.2.2.2.2.2⟩
  | str s => exact ⟨'"', escapeStr s.data ++ ['"'], rfl, by decide⟩
  | arr xs =>
    cases xs with
    | nil => exact ⟨'[', [']'], rfl, by decide⟩
    | cons x xs => exact ⟨'[', encode x ++ encodeTail xs, rfl, by decide⟩
  | obj ms =>
    cases ms with
    | nil => exact ⟨'\x7b', ['\x7d'], rfl, by decide⟩
    | cons m ms => exact ⟨'\x7b', encodeMem m ++ encodeMemsTail ms, rfl, by decide⟩

theorem noDigitHead_encodeTail (xs : List JValue) (rest : List Char) :
    NoDigitHead (encodeTail xs ++ rest) := by
  cases xs with
  | nil => exact noDigitHead_cons ']' rest (by decide)
  | cons x xs => exact noDigitHead_cons ',' (encode x ++ encodeTail xs ++ rest) (by decide)

theorem noDigitHead_encodeMemsTail (ms : List (String × JValue)) (rest : List Char) :
    NoDigitHead (encodeMemsTail ms ++ rest) := by
  cases ms with
  | nil => exact noDigitHead_cons '\x7d' rest (by decide)
  | cons m ms => exact noDigitHead_cons ',' (encodeMem m ++ encodeMemsTail ms ++ rest) (by decide)

mutual

theorem fuelB_le : ∀ v : JValue, fuelB v ≤ 2 * (encode v).length
  | .null => by simp [fuelB, encode]
  | .bool b => by cases b <;> simp [fuelB, encode]
  | .num n => by
    have h : intChars n ≠ [] := by
      rw [intChars]
      split
      · simp
      · exact natChars_ne_nil _
    have h1 : 0 < (intChars n).length := List.length_pos.mpr h
    simp only [fuelB, encode]
    omega
  | .str s => by
    simp only [fuelB, encode, List.length_cons, List.length_append]
    omega
  | .arr xs => by
    cases xs with
    | nil => simp [fuelB, fuelList, encode]
    | cons x xs =>
      have hx := fuelB_le x
      have hxs := fuelList_le xs
      simp only [fuelB, fuelList, encode, List.length_cons, List.length_append]
      omega
  | .obj ms => by
    cases ms with
    | nil => simp [fuelB, fuelMems, encode]
    | cons m ms =>
      obtain ⟨k, v⟩ := m
      have hm := fuelB_le v
      have hms := fuelMems_le ms
      simp only [fuelB, fuelMems, encode, encodeMem, List.length_cons, List.length_append]
      omega

theorem fuelList_le : ∀ xs : List JValue, fuelList xs ≤ 2 * (encodeTail xs).length
  | [] => by simp [fuelList, encodeTail]
  | x :: xs => by
    have hx := fuelB_le x
    have hxs := fuelList_le xs
    simp only [fuelList, encodeTail, List.length_cons, List.length_append]
    omega

theorem fuelMems_le : ∀ ms : List (String × JValue),
    fuelMems ms ≤ 2 * (encodeMemsTail ms).length
  | [] => by simp [fuelMems, encodeMemsTail]
  | m :: ms => by
    obtain ⟨k, v⟩ := m
    have hm := fuelB_le v
    have hms := fuelMems_le ms
    simp only [fuelMems, encodeMemsTail, encodeMem, List.length_cons, List.length_append]
    omega

end

/-- The parser family reads back exactly what the serializer wrote, given
enough fuel and a remainder that cannot be mistaken for more digits. -/
theorem parse_encode (f : Nat) :
    (∀ v rest, fuelB v ≤ f → NoDigitHead rest →
      parseVal f (encode v ++ rest) = some (v, rest)) ∧
    (∀ (m : String × JValue) rest, fuelB m.2 ≤ f → NoDigitHead rest →
      parseObjMember f (encodeMem m ++ rest) = some (m, rest)) ∧
    (∀ xs rest, fuelList xs ≤ f → NoDigitHead rest →
      parseItems f (encodeTail xs ++ rest) = some (xs, rest)) ∧
    (∀ ms rest, fuelMems ms ≤ f → NoDigitHead rest →
      parseMems f (encodeMemsTail ms ++ rest) = some (ms, rest)) := by
  induction f with
  | zero =>
    refine ⟨?_, ?_, ?_, ?_⟩
    · intro v _ hfuel _
      exact absurd hfuel (by have := fuelB_pos v; omega)
    · intro m _ hfuel _
      exact absurd hfuel (by have := fuelB_pos m.2; omega)
    · intro xs _ hfuel _
      exact absurd hfuel (by have := fuelList_pos xs; omega)
    · intro ms _ hfuel _
      exact absurd hfuel (by have := fuelMems_pos ms; omega)
  | succ f ih =>
    obtain ⟨ihV, ihM, ihI, ihMs⟩ := ih
    have hV : ∀ v rest, fuelB v ≤ f + 1 → NoDigitHead rest →
        parseVal (f + 1) (encode v ++ rest) = some (v, rest) := by
      intro v rest hfuel hrest
      cases v with
      | null => simp [encode, parseVal, expectChars]
      | bool b => cases b <;> simp [encode, parseVal, expectChars]
      | str s => simp [encode, parseVal, parseStr_escape, string_mk_data]
      | num n =>
        by_cases hn : n < 0
        · have hdall := natChars_all_digits (-n).toNat
          have hne := natChars_ne_nil (-n).toNat
          have htake := takeDigits_append (natChars (-n).toNat) rest hdall hrest
          have hempty : (natChars (-n).toNat).isEmpty = false := by
            cases hc : natChars (-n).toNat with
            | nil => exact absurd hc hne
            | cons a l => rfl
          have harg : -((digitsToNat (natChars (-n).toNat) : Nat) : Int) = n := by
            rw [digitsToNat_natChars]
            omega
          rw [show encode (.num n) = intChars n from rfl, intChars, if_pos hn]
          simp [parseVal, htake, hempty, harg]
        · cases hnc : natChars n.toNat with
          | nil => exact absurd hnc (natChars_ne_nil n.toNat)
          | cons d ds =>
            have hdall : ∀ c ∈ d :: ds, isDigitC c = true := by
              rw [← hnc]; exact natChars_all_digits n.toNat
            have hdig : isDigitC d = true := hdall d (by simp)
            obtain ⟨hn1, hn2, hn3, hn4, hn5, hn6, hn7, _⟩ := isDigitC_ne d hdig
            have htake : takeDigits (d :: (ds ++ rest)) = (d :: ds, rest) := by
              rw [show d :: (ds ++ rest) = (d :: ds) ++ rest by simp]
              exact takeDigits_append (d :: ds) rest hdall hrest
            have harg : ((digitsToNat (d :: ds) : Nat) : Int) = n := by
              rw [← hnc, digitsToNat_natChars]
              omega
            rw [show encode (.num n) = intChars n from rfl, intChars, if_neg hn, hnc]
            simp [parseVal, hn1, hn2, hn3, hn4, hn5, hn6, hn7, hdig, htake, harg]
      | arr xs =>
        cases xs with
        | nil => simp [encode, parseVal, parseArrBody]
        | cons x xs' =>
          obtain ⟨c0, cs0, hc0, hcne⟩ := encode_head_ne_rbracket x
          have hfx : fuelB x ≤ f := by
            simp only [fuelB, fuelList] at hfuel; omega
          have hfxs : fuelList xs' ≤ f := by
            simp only [fuelB, fuelList] at hfuel; omega
          have hv := ihV x (encodeTail xs' ++ rest) hfx (noDigitHead_encodeTail xs' rest)
          have hi := ihI xs' rest hfxs hrest
          have harr : parseArrBody f (encode x ++ (encodeTail xs' ++ rest)) =
              some (.arr (x :: xs'), rest) := by
            rw [hc0] at hv ⊢
            simp only [List.cons_append] at hv ⊢
            simp only [parseArrBody, if_neg hcne]
            rw [hv]
            simp [hi]
          simp only [encode, List.cons_append, List.append_assoc]
          simp [parseVal, harr]
      | obj ms =>
        cases ms with
        | nil => simp [encode, parseVal, parseObjBody]
        | cons m ms' =>
          have hfm : fuelB m.2 ≤ f := by
            simp only [fuelB, fuelMems] at hfuel; omega
          have hfms : fuelMems ms' ≤ f := by
            simp only [fuelB, fuelMems] at hfuel; omega
          have hm := ihM m (encodeMemsTail ms' ++ rest) hfm
            (noDigitHead_encodeMemsTail ms' rest)
          have hms := ihMs ms' rest hfms hrest
          obtain ⟨k, v⟩ := m
          have hobj : parseObjBody f (encodeMem (k, v) ++ (encodeMemsTail ms' ++ rest)) =
              some (.obj ((k, v) :: ms'), rest) := by
            simp only [encodeMem, List.cons_append, List.append_assoc] at hm ⊢
            simp only [parseObjBody]
            rw [if_neg (show ¬('"' : Char) = '\x7d' by decide)]
            rw [hm]
            simp [hms]
          simp only [encode, List.cons_append, List.append_assoc]
          simp only [encodeMem, List.cons_append, List.append_assoc] at hobj
          simp [parseVal, encodeMem, hobj]
    have hM : ∀ (m : String × JValue) rest, fuelB m.2 ≤ f + 1 → NoDigitHead rest →
        parseObjMember (f + 1) (encodeMem m ++ rest) = some (m, rest) := by
      intro m rest hfuel hrest
      obtain ⟨k, v⟩ := m
      have hv := hV v rest hfuel hrest
      simp [encodeMem, parseObjMember, parseStr_escape, string_mk_data, hv]
    have hI : ∀ xs rest, fuelList xs ≤ f + 1 → NoDigitHead rest →
        parseItems (f + 1) (encodeTail xs ++ rest) = some (xs, rest) := by
      intro xs rest hfuel hrest
      cases xs with
      | nil => simp [encodeTail, parseItems]
      | cons x xs' =>
        have hfx : fuelB x ≤ f := by simp only [fuelList] at hfuel; omega
        have hfxs : fuelList xs' ≤ f := by simp only [fuelList] at hfuel; omega
        have hv := ihV x (encodeTail xs' ++ rest) hfx (noDigitHead_encodeTail xs' rest)
        have hi := ihI xs' rest hfxs hrest
        simp [encodeTail, parseItems, hv, hi]
    have hMs : ∀ ms rest, fuelMems ms ≤ f + 1 → NoDigitHead rest →
        parseMems (f + 1) (encodeMemsTail ms ++ rest) = some (ms, rest) := by
      intro ms rest hfuel hrest
      cases ms with
      | nil => simp [encodeMemsTail, parseMems]
      | cons m ms' =>
        have hfm : fuelB m.2 ≤ f := by simp only [fuelMems] at hfuel; omega
        have hfms : fuelMems ms' ≤ f := by simp only [fuelMems] at hfuel; omega
        have hm := ihM m (encodeMemsTail ms' ++ rest) hfm
          (noDigitHead_encodeMemsTail ms' rest)
        have hms := ihMs ms' rest hfms hrest
        simp [encodeMemsTail, parseMems, hm, hms]
    exact ⟨hV, hM, hI, hMs⟩

/-- `decode` inverts `encode` on every serialized value. -/
theorem decode_encode (v : JValue) : decodeString (encodeString v) = some v := by
  have hfuel : fuelB v ≤ 2 * (encode v).length + 2 :=
    le_trans (fuelB_le v) (by omega)
  have h := (parse_encode (2 * (encode v).length + 2)).1 v [] hfuel noDigitHead_nil
  rw [List.append_nil] at h
  show decodeChars (encode v) = some v
  simp [decodeChars, h]

/-- C8: for every response object the engine produces, on the batch path or
the subscription path, decoding its JSON serialization yields exactly the
structure that was serialized — encode followed by decode is the identity
on the JSON subset used. -/
theorem serialization_roundtrip :
    (∀ b : BatchResponse, decodeString (serializeBatch b) = some b.toJson) ∧
    (∀ r : Response, decodeString (serializeResponse r) = some r.toJson) ∧
    (∀ v : JValue, decodeString (encodeString v) = some v) :=
  ⟨fun b => decode_encode b.toJson, fun r => decode_encode r.toJson,
    fun v => decode_encode v⟩

end TauriGraphql
